import Mathlib

/-!
# Verification of the `di` lazy dependency-injection container

Shallow embedding of the runtime behaviour of the `DiContainer` class from
`src/src/di.ts`. The file concatenates several revisions of the same design;
we embed the three runtime-distinct variants:

* the **single-descriptor variant** (`di.ts` lines 241-338 and 410-507):
  `inject` takes one class or one `(name, factory)` pair, installs a `Proxy`
  with `get` / `getPrototypeOf` / `has` / `ownKeys` traps, and caches the
  constructed instance in a closure variable; the container slot keeps the
  proxy forever.  Prefixed `s...` below.
* the **batch variant** (`di.ts` lines 113-170, also `unnamed/part_000`):
  variadic `inject(...deps)` reduces over the descriptors, installs a
  `Proxy` with a `get` trap only, and on first access executes
  `instance ||= (t[name] = new dep(t))`, overwriting the container slot with
  the raw instance.  Prefixed `b...` below.
* the **class-only variant** (`di.ts` lines 570-624): single class
  descriptor, `get`-trap-only proxy, `getInstance` reassigns the slot like
  the batch variant.  Prefixed `c...` below.

Service construction is modelled as a pure step minting a fresh instance
identifier: factories in all embedded claims construct without reading
other not-yet-constructed services (the spec's own proviso).  Property
values of a constructed instance are fixed by its service descriptor.
-/

/-! ## Association lists (container own-property tables) -/

/-- Look up a key in an association list (first match). -/
def alook {α : Type} (k : String) : List (String × α) → Option α
  | [] => none
  | (k', v) :: rest => if k' = k then some v else alook k rest

/-- Replace the value at a key, leaving the list unchanged if absent. -/
def aupd {α : Type} (k : String) (v : α) : List (String × α) → List (String × α)
  | [] => []
  | (k', v') :: rest => if k' = k then (k', v) :: rest else (k', v') :: aupd k v rest

theorem alook_aupd_self {α : Type} (k : String) (v : α) :
    ∀ (l : List (String × α)), (alook k l).isSome → alook k (aupd k v l) = some v := by
  intro l h
  induction l with
  | nil => simp [alook] at h
  | cons p rest ih =>
    by_cases hk : p.1 = k
    · simp [alook, aupd, hk]
    · simp [alook, aupd, hk] at h ⊢
      exact ih h

theorem alook_aupd_other {α : Type} (k k' : String) (v : α) (hne : k' ≠ k) :
    ∀ (l : List (String × α)), alook k' (aupd k v l) = alook k' l := by
  intro l
  induction l with
  | nil => simp [aupd]
  | cons p rest ih =>
    by_cases hk : p.1 = k
    · simp [alook, aupd, hk, Ne.symm hne]
    · by_cases hk' : p.1 = k'
      · simp [alook, aupd, hk, hk', hne]
      · simp [alook, aupd, hk, hk', ih]

theorem alook_append_left {α : Type} (k : String) {l₁ : List (String × α)} {e : α}
    (l₂ : List (String × α)) (h : alook k l₁ = some e) :
    alook k (l₁ ++ l₂) = some e := by
  induction l₁ with
  | nil => simp [alook] at h
  | cons p rest ih =>
    by_cases hk : p.1 = k
    · simp [alook, hk] at h ⊢; exact h
    · simp [alook, hk] at h ⊢; exact ih h

theorem alook_append_right {α : Type} (k : String) (l₁ l₂ : List (String × α))
    (h : alook k l₁ = none) : alook k (l₁ ++ l₂) = alook k l₂ := by
  induction l₁ with
  | nil => simp
  | cons p rest ih =>
    by_cases hk : p.1 = k
    · simp [alook, hk] at h
    · simp [alook, hk] at h ⊢; exact ih h

theorem alook_isSome_iff_mem_keys {α : Type} (k : String) :
    ∀ (l : List (String × α)), (alook k l).isSome ↔ k ∈ l.map Prod.fst := by
  intro l
  induction l with
  | nil => simp [alook]
  | cons p rest ih =>
    by_cases hk : p.1 = k
    · simp [alook, hk]
    · simp [alook, hk, ih, Ne.symm hk]

theorem alook_none_of_not_mem_keys {α : Type} (k : String) (l : List (String × α))
    (h : k ∉ l.map Prod.fst) : alook k l = none := by
  cases he : alook k l with
  | none => rfl
  | some e =>
    exact absurd ((alook_isSome_iff_mem_keys k l).mp (by simp [he])) h

/-! ## Values, instances, service descriptors -/

/-- A property value of a constructed service instance.  `fn m` is a method
whose body is identified by the method name `m` (JavaScript: a function-typed
property); everything else is plain data. -/
inductive DiValue where
  | str : String → DiValue
  | fn : String → DiValue
  | undef : DiValue
deriving DecidableEq, Repr

/-- A constructed service instance: a fresh identity `id` (object identity of
the `new`-allocated object), the name of the service class it instantiates,
and its property table. -/
structure DiInstance where
  id : Nat
  svcName : String
  props : List (String × DiValue)
deriving DecidableEq, Repr

/-- A service descriptor: either a class with a static `getServiceName` or an
explicit `(name, factory)` pair; both determine a name and the property table
of the instance the factory builds. -/
structure ServiceDesc where
  name : String
  props : List (String × DiValue)
deriving DecidableEq, Repr

/-- Run the descriptor's constructor/factory, minting object identity `n`. -/
def mkInstance (n : Nat) (s : ServiceDesc) : DiInstance :=
  ⟨n, s.name, s.props⟩

/-- What a `get` trap returns: `value instanceof Function ? value.bind(instance)
: value` — a method comes back bound to the concrete instance, data comes back
unchanged. -/
inductive RetVal where
  | plain : DiValue → RetVal
  | bound : DiInstance → String → RetVal
deriving DecidableEq, Repr

/-- The `value.bind(instance)` / identity branch of the `get` traps
(`di.ts` lines 284-287, 141-144, 595-598). -/
def bindValue (i : DiInstance) : DiValue → RetVal
  | DiValue.fn m => RetVal.bound i m
  | v => RetVal.plain v

/-- `instance[property]` — a missing property reads as `undefined`. -/
def propOf (i : DiInstance) (p : String) : DiValue :=
  match alook p i.props with
  | some v => v
  | none => DiValue.undef

/-- What reading a container field yields: the lazy proxy registered under a
name, or a raw instance (after the batch/class-only slot overwrite). -/
inductive HandleVal where
  | lazyH : String → HandleVal
  | rawH : DiInstance → HandleVal
deriving DecidableEq, Repr

/-! ## Single-descriptor variant (`di.ts` 241-338 / 410-507) -/

/-- One registered entry of the single-descriptor container: the descriptor,
the closure variable `instance : S | undefined`, and a ghost counter of how
many times the factory has run (the tests' "construction counter"). -/
structure SEntry where
  svc : ServiceDesc
  inst : Option DiInstance
  count : Nat
deriving DecidableEq, Repr

/-- Single-descriptor container state: own properties (name → entry) plus a
fresh-identity supply for `new`. -/
structure SContainer where
  entries : List (String × SEntry)
  nextId : Nat
deriving DecidableEq, Repr

def semptyC : SContainer := ⟨[], 0⟩

/-- `ReservedFields = new Set(["inject", "injectContainer"])` (`di.ts` 200). -/
def reservedFields : List String := ["inject", "injectContainer"]

/-- `getInstance` (`di.ts` 268-276): return the memoized instance, or run the
factory once, store it in the closure, and return it.  The container slot is
NOT reassigned. -/
def sGetInstance (st : SContainer) (name : String) : Option (DiInstance × SContainer) :=
  match alook name st.entries with
  | none => none
  | some e =>
    match e.inst with
    | some i => some (i, st)
    | none =>
      let i := mkInstance st.nextId e.svc
      some (i, ⟨aupd name ⟨e.svc, some i, e.count + 1⟩ st.entries, st.nextId + 1⟩)

/-- The proxy `get` trap (`di.ts` 282-288): construct on demand, read the
property off the instance, bind function values to the instance. -/
def sProxyGet (st : SContainer) (name prop : String) : Option (RetVal × SContainer) :=
  match sGetInstance st name with
  | none => none
  | some (i, st') => some (bindValue i (propOf i prop), st')

/-- The proxy `getPrototypeOf` trap (`di.ts` 289-291): constructs, then
reports the instance's prototype (identified by its class name here). -/
def sProxyProto (st : SContainer) (name : String) : Option (String × SContainer) :=
  match sGetInstance st name with
  | none => none
  | some (i, st') => some (i.svcName, st')

/-- The proxy `has` trap (`di.ts` 292-294): constructs, then answers
`hasOwnProperty` on the instance. -/
def sProxyHas (st : SContainer) (name prop : String) : Option (Bool × SContainer) :=
  match sGetInstance st name with
  | none => none
  | some (i, st') => some ((alook prop i.props).isSome, st')

/-- The proxy `ownKeys` trap (`di.ts` 295-297): constructs, then lists the
instance's own property names. -/
def sProxyOwnKeys (st : SContainer) (name : String) : Option (List String × SContainer) :=
  match sGetInstance st name with
  | none => none
  | some (i, st') => some (i.props.map Prod.fst, st')

/-- Reading `container.name`: a plain own-property read of the container —
no trap of the handle fires, the slot still holds the lazy proxy. -/
def sContainerGet (st : SContainer) (name : String) : Option HandleVal :=
  (alook name st.entries).map (fun _ => HandleVal.lazyH name)

/-- `Object.keys(container)`: the container's own enumerable property names. -/
def sContainerKeys (st : SContainer) : List String :=
  st.entries.map Prod.fst

/-- `name in container`: own entries plus the prototype methods. -/
def sContainerHasName (st : SContainer) (name : String) : Bool :=
  (alook name st.entries).isSome || reservedFields.contains name

/-- `Object.values(container)`: the installed handles, traps untouched. -/
def sContainerValues (st : SContainer) : List HandleVal :=
  st.entries.map (fun p => HandleVal.lazyH p.1)

/-- `inject` (`di.ts` 256-312): reserved-name check, then duplicate check
(`has(this, name)`), then install the lazy proxy as an own property.  A
failed check throws with the container unmodified. -/
def sInject (st : SContainer) (svc : ServiceDesc) : SContainer × Option String :=
  if reservedFields.contains svc.name then
    (st, some ("Reserved field name: " ++ svc.name))
  else if (alook svc.name st.entries).isSome then
    (st, some ("Duplicate service name: " ++ svc.name))
  else
    (⟨st.entries ++ [(svc.name, ⟨svc, none, 0⟩)], st.nextId⟩, none)

/-- `injectContainer` (`di.ts` 496-506, the `Object.assign` variant; the
forwarding-getter variant at 323-337 validates identically): check every own
key of `other` against `this` before copying anything, then copy all entries
(with their closure state) over. -/
def sInjectContainer (st other : SContainer) : SContainer × Option String :=
  match (other.entries.map Prod.fst).find? (fun k => (alook k st.entries).isSome) with
  | some k => (st, some ("Containers have duplicated keys: " ++ k))
  | none => (⟨st.entries ++ other.entries, max st.nextId other.nextId⟩, none)

/-! ### Handle interactions as a sequence -/

/-- A member-level interaction with one handle: property/method read (also
the first half of a method call), prototype query, membership test. -/
inductive HOp where
  | get : String → HOp
  | proto : HOp
  | hasProp : String → HOp
deriving DecidableEq, Repr

/-- Apply one interaction to the handle registered at `name`. -/
def sStep (st : SContainer) (name : String) : HOp → Option SContainer
  | HOp.get p => (sProxyGet st name p).map Prod.snd
  | HOp.proto => (sProxyProto st name).map Prod.snd
  | HOp.hasProp p => (sProxyHas st name p).map Prod.snd

/-- Apply a sequence of interactions to the handle registered at `name`. -/
def sRunOps (st : SContainer) (name : String) : List HOp → Option SContainer
  | [] => some st
  | op :: ops =>
    match sStep st name op with
    | none => none
    | some st' => sRunOps st' name ops

/-- Observation of one entry: closure memo and construction counter. -/
def sEntryState (st : SContainer) (name : String) : Option (Option DiInstance × Nat) :=
  (alook name st.entries).map (fun e => (e.inst, e.count))

/-! ## Batch variant (`di.ts` 113-170, `unnamed/part_000`) -/

/-- One entry of the batch container.  The closure variable `instance` and
the container slot move together: `instance ||= (t[name] = new dep(t))`
sets the memo and overwrites the slot with the raw instance in one step, so
`memo = some i` also means the slot now holds `i` rather than the proxy. -/
structure BEntry where
  svc : ServiceDesc
  memo : Option DiInstance
  count : Nat
deriving DecidableEq, Repr

/-- Batch-variant container state. -/
structure BContainer where
  entries : List (String × BEntry)
  nextId : Nat
deriving DecidableEq, Repr

def bemptyC : BContainer := ⟨[], 0⟩

/-- The methods living on `DiContainer.prototype` (`di.ts` 113-170), which
make `t[name]` truthy for those names. -/
def protoNames : List String := ["inject", "injectContainer"]

/-- The duplicate/reserved guard `if (t[name])` (`di.ts` 130): truthy for an
installed entry (proxy or instance) and for the prototype methods. -/
def bTruthy (st : BContainer) (name : String) : Bool :=
  (alook name st.entries).isSome || protoNames.contains name

/-- One reduction step of the variadic `inject` (`di.ts` 125-149): guard,
then install the `get`-trap proxy as an own property.  On failure the state
is returned untouched together with the thrown message
(`(name in DiContainer.prototype ? "Reserv" : "Duplicat") + "ed service name: " + name`). -/
def bInject1 (st : BContainer) (svc : ServiceDesc) : BContainer × Option String :=
  if bTruthy st svc.name then
    (st, some ((if protoNames.contains svc.name then "Reserv" else "Duplicat")
      ++ "ed service name: " ++ svc.name))
  else
    (⟨st.entries ++ [(svc.name, ⟨svc, none, 0⟩)], st.nextId⟩, none)

/-- `dependencies.reduce(..., this)`: process descriptors left to right; a
throw aborts the call but keeps every entry installed before it. -/
def bInject (st : BContainer) : List ServiceDesc → BContainer × Option String
  | [] => (st, none)
  | s :: rest =>
    match bInject1 st s with
    | (st', none) => bInject st' rest
    | (st', some e) => (st', some e)

/-- `instance ||= (t[name] = new dep(t))` (`di.ts` 140): memoize and
overwrite the container slot with the raw instance on first use. -/
def bGetInstance (st : BContainer) (name : String) : Option (DiInstance × BContainer) :=
  match alook name st.entries with
  | none => none
  | some e =>
    match e.memo with
    | some i => some (i, st)
    | none =>
      let i := mkInstance st.nextId e.svc
      some (i, ⟨aupd name ⟨e.svc, some i, e.count + 1⟩ st.entries, st.nextId + 1⟩)

/-- The batch proxy's only trap, `get` (`di.ts` 139-145). -/
def bProxyGet (st : BContainer) (name prop : String) : Option (RetVal × BContainer) :=
  match bGetInstance st name with
  | none => none
  | some (i, st') => some (bindValue i (propOf i prop), st')

/-- Reading `container.name` in the batch variant: the lazy proxy until the
first `get`-trap firing, the raw instance afterwards (slot overwritten). -/
def bContainerGet (st : BContainer) (name : String) : Option HandleVal :=
  (alook name st.entries).map (fun e =>
    match e.memo with
    | some i => HandleVal.rawH i
    | none => HandleVal.lazyH name)

/-- Observation of one batch entry: memo and construction counter. -/
def bEntryState (st : BContainer) (name : String) : Option (Option DiInstance × Nat) :=
  (alook name st.entries).map (fun e => (e.memo, e.count))

/-! ## Class-only variant (`di.ts` 570-624)

Shares the slot-overwrite behaviour with the batch variant, so it reuses
`BContainer`; its `inject` takes a single class descriptor and classifies
the guard failure with the regex test instead of a prototype lookup. -/

/-- The regex guard of line 586: `/^inject(Container)?$/.test(name)`. -/
def cReservedName (name : String) : Bool :=
  name = "inject" || name = "injectContainer"

/-- `inject` of the class-only variant (`di.ts` 575-604): guard `if (t[name])`,
message via the regex, then install the `get`-trap proxy. -/
def cInject (st : BContainer) (svc : ServiceDesc) : BContainer × Option String :=
  if bTruthy st svc.name then
    (st, some ((if cReservedName svc.name then "Reserv" else "Duplicat")
      ++ "ed service name: " ++ svc.name))
  else
    (⟨st.entries ++ [(svc.name, ⟨svc, none, 0⟩)], st.nextId⟩, none)

/-- `getInstance` of the class-only variant (`di.ts` 582-583):
`instance ||= (t[name] = new dependency(t))` — identical slot overwrite. -/
def cGetInstance (st : BContainer) (name : String) : Option (DiInstance × BContainer) :=
  match alook name st.entries with
  | none => none
  | some e =>
    match e.memo with
    | some i => some (i, st)
    | none =>
      let i := mkInstance st.nextId e.svc
      some (i, ⟨aupd name ⟨e.svc, some i, e.count + 1⟩ st.entries, st.nextId + 1⟩)

/-- The class-only proxy's `get` trap (`di.ts` 593-599). -/
def cProxyGet (st : BContainer) (name prop : String) : Option (RetVal × BContainer) :=
  match cGetInstance st name with
  | none => none
  | some (i, st') => some (bindValue i (propOf i prop), st')

/-- Reading `container.name` in the class-only variant. -/
def cContainerGet (st : BContainer) (name : String) : Option HandleVal :=
  (alook name st.entries).map (fun e =>
    match e.memo with
    | some i => HandleVal.rawH i
    | none => HandleVal.lazyH name)

/-! ## The CABA example (`unnamed/part_004`, "should support services
depending on each other in inject")

Services `a`, `b`, `c` each expose a `getValue` method.  `b`'s constructor
only stores the container reference (`constructor(public deps) {}`); the
cross-service reads happen inside `getValue` bodies, routed through the
container's handles.  `invokeGV fuel st n` performs `container.n.getValue()`
in the batch variant: fire the `get` trap (constructing on first use), then
run the bound method's body; `runGVBody` is the dispatch on the class of the
bound instance. -/

def svcA : ServiceDesc := ⟨"a", [("getValue", DiValue.fn "getValue")]⟩

def svcB : ServiceDesc := ⟨"b", [("getValue", DiValue.fn "getValue")]⟩

def svcC : ServiceDesc := ⟨"c", [("getValue", DiValue.fn "getValue")]⟩

mutual

def invokeGV : Nat → BContainer → String → Option (String × BContainer)
  | 0, _, _ => none
  | Nat.succ fuel, st, name =>
    match bProxyGet st name "getValue" with
    | some (RetVal.bound i "getValue", st') => runGVBody fuel st' i.svcName
    | _ => none

def runGVBody : Nat → BContainer → String → Option (String × BContainer)
  | _, st, "a" => some ("A", st)
  | Nat.succ fuel, st, "b" =>
    match invokeGV fuel st "a" with
    | some (va, st') => some ("B" ++ va, st')
    | none => none
  | Nat.succ fuel, st, "c" =>
    match invokeGV fuel st "a" with
    | some (va, st') =>
      match invokeGV fuel st' "b" with
      | some (vb, st'') => some ("C" ++ va ++ vb, st'')
      | none => none
    | none => none
  | _, _, _ => none

end

/-! ## Core lemmas about the single-descriptor handle -/

theorem sGetInstance_memo (st : SContainer) (name : String) (e : SEntry) (i : DiInstance)
    (hl : alook name st.entries = some e) (hm : e.inst = some i) :
    sGetInstance st name = some (i, st) := by
  simp [sGetInstance, hl, hm]

theorem sGetInstance_fresh (st : SContainer) (name : String) (e : SEntry)
    (hl : alook name st.entries = some e) (hu : e.inst = none) :
    sGetInstance st name =
      some (mkInstance st.nextId e.svc,
        ⟨aupd name ⟨e.svc, some (mkInstance st.nextId e.svc), e.count + 1⟩ st.entries,
          st.nextId + 1⟩) := by
  simp [sGetInstance, hl, hu]

theorem sStep_memo (st : SContainer) (name : String) (e : SEntry) (i : DiInstance)
    (op : HOp) (hl : alook name st.entries = some e) (hm : e.inst = some i) :
    sStep st name op = some st := by
  cases op <;>
    simp [sStep, sProxyGet, sProxyProto, sProxyHas, sGetInstance_memo st name e i hl hm]

theorem sRunOps_memo (st : SContainer) (name : String) (e : SEntry) (i : DiInstance)
    (hl : alook name st.entries = some e) (hm : e.inst = some i) :
    ∀ ops, sRunOps st name ops = some st := by
  intro ops
  induction ops with
  | nil => rfl
  | cons op ops ih => simp [sRunOps, sStep_memo st name e i op hl hm, ih]

theorem sStep_fresh (st : SContainer) (name : String) (e : SEntry) (op : HOp)
    (hl : alook name st.entries = some e) (hu : e.inst = none) :
    sStep st name op =
      some ⟨aupd name ⟨e.svc, some (mkInstance st.nextId e.svc), e.count + 1⟩ st.entries,
        st.nextId + 1⟩ := by
  cases op <;>
    simp [sStep, sProxyGet, sProxyProto, sProxyHas, sGetInstance_fresh st name e hl hu]

theorem sRunOps_cons (st st' : SContainer) (name : String) (op : HOp) (ops : List HOp)
    (h : sStep st name op = some st') :
    sRunOps st name (op :: ops) = sRunOps st' name ops := by
  simp [sRunOps, h]

theorem alook_init_self (st : SContainer) (name : String) (e : SEntry)
    (hl : alook name st.entries = some e) :
    alook name
        (aupd name ⟨e.svc, some (mkInstance st.nextId e.svc), e.count + 1⟩ st.entries) =
      some ⟨e.svc, some (mkInstance st.nextId e.svc), e.count + 1⟩ :=
  alook_aupd_self name _ st.entries (by simp [hl])

theorem sRunOps_preserves_entry (name : String) :
    ∀ (ops : List HOp) (st : SContainer) (e : SEntry),
      alook name st.entries = some e →
      ∀ st2, sRunOps st name ops = some st2 → (alook name st2.entries).isSome := by
  intro ops
  induction ops with
  | nil =>
    intro st e hl st2 h
    simp [sRunOps] at h
    subst h
    simp [hl]
  | cons op ops ih =>
    intro st e hl st2 h
    cases hm : e.inst with
    | some i =>
      rw [sRunOps_cons st st name op ops (sStep_memo st name e i op hl hm)] at h
      exact ih st e hl st2 h
    | none =>
      rw [sRunOps_cons st _ name op ops (sStep_fresh st name e op hl hm)] at h
      exact ih _ _ (alook_init_self st name e hl) st2 h

/-! ## Core lemmas about the batch / class-only variants -/

theorem bGetInstance_memo (st : BContainer) (name : String) (e : BEntry) (i : DiInstance)
    (hl : alook name st.entries = some e) (hm : e.memo = some i) :
    bGetInstance st name = some (i, st) := by
  simp [bGetInstance, hl, hm]

theorem bGetInstance_fresh (st : BContainer) (name : String) (e : BEntry)
    (hl : alook name st.entries = some e) (hu : e.memo = none) :
    bGetInstance st name =
      some (mkInstance st.nextId e.svc,
        ⟨aupd name ⟨e.svc, some (mkInstance st.nextId e.svc), e.count + 1⟩ st.entries,
          st.nextId + 1⟩) := by
  simp [bGetInstance, hl, hu]

theorem cGetInstance_fresh (st : BContainer) (name : String) (e : BEntry)
    (hl : alook name st.entries = some e) (hu : e.memo = none) :
    cGetInstance st name =
      some (mkInstance st.nextId e.svc,
        ⟨aupd name ⟨e.svc, some (mkInstance st.nextId e.svc), e.count + 1⟩ st.entries,
          st.nextId + 1⟩) := by
  simp [cGetInstance, hl, hu]

theorem balook_init_self (st : BContainer) (name : String) (e : BEntry)
    (hl : alook name st.entries = some e) :
    alook name
        (aupd name ⟨e.svc, some (mkInstance st.nextId e.svc), e.count + 1⟩ st.entries) =
      some ⟨e.svc, some (mkInstance st.nextId e.svc), e.count + 1⟩ :=
  alook_aupd_self name _ st.entries (by simp [hl])

/-! ## Inversion lemmas for registration -/

theorem sInject_ok_inv (st : SContainer) (svc : ServiceDesc) (st' : SContainer)
    (h : sInject st svc = (st', none)) :
    reservedFields.contains svc.name = false ∧
    alook svc.name st.entries = none ∧
    st' = ⟨st.entries ++ [(svc.name, ⟨svc, none, 0⟩)], st.nextId⟩ := by
  unfold sInject at h
  split at h
  next => exact absurd (congrArg Prod.snd h) (by simp)
  next h1 =>
    split at h
    next => exact absurd (congrArg Prod.snd h) (by simp)
    next h2 =>
      exact ⟨by simpa using h1, Option.not_isSome_iff_eq_none.mp h2,
        (congrArg Prod.fst h).symm⟩

theorem bInject1_ok_inv (st : BContainer) (svc : ServiceDesc) (st' : BContainer)
    (h : bInject1 st svc = (st', none)) :
    alook svc.name st.entries = none ∧
    st' = ⟨st.entries ++ [(svc.name, ⟨svc, none, 0⟩)], st.nextId⟩ := by
  unfold bInject1 at h
  split at h
  next => exact absurd (congrArg Prod.snd h) (by simp)
  next h1 =>
    have h2 : (alook svc.name st.entries).isSome = false := by
      by_contra hc
      exact h1 (by simp [bTruthy, eq_true_of_ne_false hc])
    exact ⟨Option.not_isSome_iff_eq_none.mp (by simp [h2]),
      (congrArg Prod.fst h).symm⟩

theorem cInject_ok_inv (st : BContainer) (svc : ServiceDesc) (st' : BContainer)
    (h : cInject st svc = (st', none)) :
    alook svc.name st.entries = none ∧
    st' = ⟨st.entries ++ [(svc.name, ⟨svc, none, 0⟩)], st.nextId⟩ := by
  unfold cInject at h
  split at h
  next => exact absurd (congrArg Prod.snd h) (by simp)
  next h1 =>
    have h2 : (alook svc.name st.entries).isSome = false := by
      by_contra hc
      exact h1 (by simp [bTruthy, eq_true_of_ne_false hc])
    exact ⟨Option.not_isSome_iff_eq_none.mp (by simp [h2]),
      (congrArg Prod.fst h).symm⟩

theorem alook_singleton_self {α : Type} (k : String) (v : α) :
    alook k [(k, v)] = some v := by
  simp [alook]

/-- After a successful registration the new entry is present, uninitialized,
with construction counter `0`. -/
theorem sInject_ok_entry (st : SContainer) (svc : ServiceDesc) (st' : SContainer)
    (h : sInject st svc = (st', none)) :
    alook svc.name st'.entries = some ⟨svc, none, 0⟩ := by
  obtain ⟨-, hnone, hst⟩ := sInject_ok_inv st svc st' h
  subst hst
  rw [show (⟨st.entries ++ [(svc.name, ⟨svc, none, 0⟩)], st.nextId⟩ : SContainer).entries
      = st.entries ++ [(svc.name, ⟨svc, none, 0⟩)] from rfl,
    alook_append_right svc.name st.entries _ hnone]
  exact alook_singleton_self svc.name _

theorem bInject1_ok_entry (st : BContainer) (svc : ServiceDesc) (st' : BContainer)
    (h : bInject1 st svc = (st', none)) :
    alook svc.name st'.entries = some ⟨svc, none, 0⟩ := by
  obtain ⟨hnone, hst⟩ := bInject1_ok_inv st svc st' h
  subst hst
  rw [show (⟨st.entries ++ [(svc.name, ⟨svc, none, 0⟩)], st.nextId⟩ : BContainer).entries
      = st.entries ++ [(svc.name, ⟨svc, none, 0⟩)] from rfl,
    alook_append_right svc.name st.entries _ hnone]
  exact alook_singleton_self svc.name _

theorem cInject_ok_entry (st : BContainer) (svc : ServiceDesc) (st' : BContainer)
    (h : cInject st svc = (st', none)) :
    alook svc.name st'.entries = some ⟨svc, none, 0⟩ := by
  obtain ⟨hnone, hst⟩ := cInject_ok_inv st svc st' h
  subst hst
  rw [show (⟨st.entries ++ [(svc.name, ⟨svc, none, 0⟩)], st.nextId⟩ : BContainer).entries
      = st.entries ++ [(svc.name, ⟨svc, none, 0⟩)] from rfl,
    alook_append_right svc.name st.entries _ hnone]
  exact alook_singleton_self svc.name _

/-! ## Trap-level lemmas -/

theorem sProxyGet_fresh (st : SContainer) (name p : String) (e : SEntry)
    (hl : alook name st.entries = some e) (hu : e.inst = none) :
    sProxyGet st name p =
      some (bindValue (mkInstance st.nextId e.svc) (propOf (mkInstance st.nextId e.svc) p),
        ⟨aupd name ⟨e.svc, some (mkInstance st.nextId e.svc), e.count + 1⟩ st.entries,
          st.nextId + 1⟩) := by
  simp [sProxyGet, sGetInstance_fresh st name e hl hu]

theorem sProxyGet_memo (st : SContainer) (name p : String) (e : SEntry) (i : DiInstance)
    (hl : alook name st.entries = some e) (hm : e.inst = some i) :
    sProxyGet st name p = some (bindValue i (propOf i p), st) := by
  simp [sProxyGet, sGetInstance_memo st name e i hl hm]

theorem sProxyProto_fresh (st : SContainer) (name : String) (e : SEntry)
    (hl : alook name st.entries = some e) (hu : e.inst = none) :
    sProxyProto st name =
      some (e.svc.name,
        ⟨aupd name ⟨e.svc, some (mkInstance st.nextId e.svc), e.count + 1⟩ st.entries,
          st.nextId + 1⟩) := by
  simp [sProxyProto, sGetInstance_fresh st name e hl hu, mkInstance]

theorem sProxyHas_fresh (st : SContainer) (name p : String) (e : SEntry)
    (hl : alook name st.entries = some e) (hu : e.inst = none) :
    sProxyHas st name p =
      some ((alook p e.svc.props).isSome,
        ⟨aupd name ⟨e.svc, some (mkInstance st.nextId e.svc), e.count + 1⟩ st.entries,
          st.nextId + 1⟩) := by
  simp [sProxyHas, sGetInstance_fresh st name e hl hu, mkInstance]

theorem bProxyGet_fresh (st : BContainer) (name p : String) (e : BEntry)
    (hl : alook name st.entries = some e) (hu : e.memo = none) :
    bProxyGet st name p =
      some (bindValue (mkInstance st.nextId e.svc) (propOf (mkInstance st.nextId e.svc) p),
        ⟨aupd name ⟨e.svc, some (mkInstance st.nextId e.svc), e.count + 1⟩ st.entries,
          st.nextId + 1⟩) := by
  simp [bProxyGet, bGetInstance_fresh st name e hl hu]

theorem bProxyGet_memo (st : BContainer) (name p : String) (e : BEntry) (i : DiInstance)
    (hl : alook name st.entries = some e) (hm : e.memo = some i) :
    bProxyGet st name p = some (bindValue i (propOf i p), st) := by
  simp [bProxyGet, bGetInstance_memo st name e i hl hm]

theorem cProxyGet_fresh (st : BContainer) (name p : String) (e : BEntry)
    (hl : alook name st.entries = some e) (hu : e.memo = none) :
    cProxyGet st name p =
      some (bindValue (mkInstance st.nextId e.svc) (propOf (mkInstance st.nextId e.svc) p),
        ⟨aupd name ⟨e.svc, some (mkInstance st.nextId e.svc), e.count + 1⟩ st.entries,
          st.nextId + 1⟩) := by
  simp [cProxyGet, cGetInstance_fresh st name e hl hu]

theorem lazyH_mem_values (st : SContainer) (name : String)
    (h : (alook name st.entries).isSome) :
    HandleVal.lazyH name ∈ sContainerValues st := by
  obtain ⟨x, hx, hx1⟩ := List.mem_map.mp ((alook_isSome_iff_mem_keys name st.entries).mp h)
  exact List.mem_map.mpr ⟨x, hx, by rw [hx1]⟩

/-! ## Witness fixtures -/

def svcLazy : ServiceDesc := ⟨"lazy", [("foo", DiValue.str "bar"), ("run", DiValue.fn "run")]⟩

def wLazyC : SContainer := (sInject semptyC svcLazy).1

def wBatchA : BContainer := (bInject1 bemptyC svcA).1

def wClassA : BContainer := (cInject bemptyC svcA).1

def wS1 : SContainer := (sInject semptyC ⟨"s1", []⟩).1

def wS2 : SContainer := (sInject semptyC ⟨"s2", []⟩).1

/-! ## Claims -/

/-- **C1**: for every registered service and every sequence of member-level
interactions with its handle (property/method read, prototype query,
membership test), the factory runs exactly once — on the first interaction —
and every later interaction sees the same cached instance; additionally, in
the batch variant, repeated `get`-trap firings construct once and reuse the
same instance; the uninitialized → initialized transition is one-way (the
post-first-interaction state is a fixed point of every further
interaction). -/
theorem handle_constructs_exactly_once (st : SContainer) (name : String) (e : SEntry)
    (op : HOp) (ops : List HOp)
    (bst : BContainer) (bname bp : String) (be : BEntry)
    (hl : alook name st.entries = some e) (hu : e.inst = none)
    (hbl : alook bname bst.entries = some be) (hbu : be.memo = none) :
    (∃ st' i, sRunOps st name (op :: ops) = some st' ∧
      sEntryState st' name = some (some i, e.count + 1) ∧
      ∀ more, sRunOps st' name more = some st') ∧
    (∃ i bst1, bProxyGet bst bname bp = some (bindValue i (propOf i bp), bst1) ∧
      bEntryState bst1 bname = some (some i, be.count + 1) ∧
      ∀ p2, bProxyGet bst1 bname p2 = some (bindValue i (propOf i p2), bst1)) := by
  constructor
  · refine ⟨⟨aupd name ⟨e.svc, some (mkInstance st.nextId e.svc), e.count + 1⟩ st.entries,
      st.nextId + 1⟩, mkInstance st.nextId e.svc, ?_, ?_, ?_⟩
    · rw [sRunOps_cons st _ name op ops (sStep_fresh st name e op hl hu)]
      exact sRunOps_memo _ name _ (mkInstance st.nextId e.svc)
        (alook_init_self st name e hl) rfl ops
    · simp [sEntryState, alook_init_self st name e hl]
    · intro more
      exact sRunOps_memo _ name _ (mkInstance st.nextId e.svc)
        (alook_init_self st name e hl) rfl more
  · refine ⟨mkInstance bst.nextId be.svc,
      ⟨aupd bname ⟨be.svc, some (mkInstance bst.nextId be.svc), be.count + 1⟩ bst.entries,
        bst.nextId + 1⟩, bProxyGet_fresh bst bname bp be hbl hbu, ?_, ?_⟩
    · simp [bEntryState, balook_init_self bst bname be hbl]
    · intro p2
      exact bProxyGet_memo _ bname p2 _ (mkInstance bst.nextId be.svc)
        (balook_init_self bst bname be hbl) rfl

theorem handle_constructs_exactly_once_witness :
    ∃ st' i, sRunOps wLazyC "lazy" [HOp.get "foo", HOp.proto, HOp.hasProp "run"] = some st' ∧
      sEntryState st' "lazy" = some (some i, 0 + 1) ∧
      ∀ more, sRunOps st' "lazy" more = some st' :=
  (handle_constructs_exactly_once wLazyC "lazy" ⟨svcLazy, none, 0⟩ (HOp.get "foo")
    [HOp.proto, HOp.hasProp "run"] wBatchA "a" "getValue" ⟨svcA, none, 0⟩
    (by decide) rfl (by decide) rfl).1

/-- **C2**: construction is triggered by the first property/method read,
prototype query, or membership test on the handle (and, in the batch variant,
by a `get`-trap firing), but not by enumerating the container's own keys,
testing whether the container has the name, or listing the container's
values: those read the container's own property table without firing any
handle trap, so the entry stays uninitialized with counter unchanged. -/
theorem construction_trigger_boundary (st : SContainer) (name p : String) (e : SEntry)
    (bst : BContainer) (bname bp : String) (be : BEntry)
    (hl : alook name st.entries = some e) (hu : e.inst = none)
    (hbl : alook bname bst.entries = some be) (hbu : be.memo = none) :
    (∃ rv st1, sProxyGet st name p = some (rv, st1) ∧
      ∃ i, sEntryState st1 name = some (some i, e.count + 1)) ∧
    (∃ pr st1, sProxyProto st name = some (pr, st1) ∧
      ∃ i, sEntryState st1 name = some (some i, e.count + 1)) ∧
    (∃ b st1, sProxyHas st name p = some (b, st1) ∧
      ∃ i, sEntryState st1 name = some (some i, e.count + 1)) ∧
    name ∈ sContainerKeys st ∧
    sContainerHasName st name = true ∧
    HandleVal.lazyH name ∈ sContainerValues st ∧
    sEntryState st name = some (none, e.count) ∧
    (∃ rv bst1, bProxyGet bst bname bp = some (rv, bst1) ∧
      ∃ i, bEntryState bst1 bname = some (some i, be.count + 1)) := by
  refine ⟨⟨_, _, sProxyGet_fresh st name p e hl hu, mkInstance st.nextId e.svc, ?_⟩,
    ⟨_, _, sProxyProto_fresh st name e hl hu, mkInstance st.nextId e.svc, ?_⟩,
    ⟨_, _, sProxyHas_fresh st name p e hl hu, mkInstance st.nextId e.svc, ?_⟩,
    (alook_isSome_iff_mem_keys name st.entries).mp (by simp [hl]),
    by simp [sContainerHasName, hl],
    lazyH_mem_values st name (by simp [hl]),
    by simp [sEntryState, hl, hu],
    ⟨_, _, bProxyGet_fresh bst bname bp be hbl hbu, mkInstance bst.nextId be.svc, ?_⟩⟩
  · simp [sEntryState, alook_init_self st name e hl]
  · simp [sEntryState, alook_init_self st name e hl]
  · simp [sEntryState, alook_init_self st name e hl]
  · simp [bEntryState, balook_init_self bst bname be hbl]

theorem construction_trigger_boundary_witness :
    (∃ rv st1, sProxyGet wLazyC "lazy" "foo" = some (rv, st1) ∧
      ∃ i, sEntryState st1 "lazy" = some (some i, 0 + 1)) ∧
    "lazy" ∈ sContainerKeys wLazyC ∧
    sEntryState wLazyC "lazy" = some (none, 0) :=
  have h := construction_trigger_boundary wLazyC "lazy" "foo" ⟨svcLazy, none, 0⟩
    wBatchA "a" "getValue" ⟨svcA, none, 0⟩ (by decide) rfl (by decide) rfl
  ⟨h.1, h.2.2.2.1, h.2.2.2.2.2.2.1⟩

/-- **C3**: `injectContainer` with disjoint name sets succeeds, exposing the
union of both entry tables with every entry (including its closure memo and
construction counter, hence laziness and singleton-ness) preserved; with any
shared name it fails naming a colliding key and leaves the target exactly as
it was. -/
theorem injectContainer_atomic_union (st other : SContainer) :
    ((∀ k ∈ st.entries.map Prod.fst, alook k other.entries = none) →
      sInjectContainer st other =
        (⟨st.entries ++ other.entries, max st.nextId other.nextId⟩, none) ∧
      (∀ k e, alook k st.entries = some e →
        alook k (sInjectContainer st other).1.entries = some e) ∧
      (∀ k e, alook k other.entries = some e →
        alook k (sInjectContainer st other).1.entries = some e)) ∧
    ((∃ k, (alook k st.entries).isSome ∧ (alook k other.entries).isSome) →
      ∃ k, (alook k st.entries).isSome ∧ (alook k other.entries).isSome ∧
        sInjectContainer st other = (st, some ("Containers have duplicated keys: " ++ k))) := by
  constructor
  · intro hdisj
    have hfind : (other.entries.map Prod.fst).find?
        (fun k => (alook k st.entries).isSome) = none := by
      rw [List.find?_eq_none]
      intro k hk hc
      have hmem : k ∈ st.entries.map Prod.fst :=
        (alook_isSome_iff_mem_keys k st.entries).mp hc
      have hnone := hdisj k hmem
      have h2 := (alook_isSome_iff_mem_keys k other.entries).mpr hk
      rw [hnone] at h2
      exact absurd h2 (by simp)
    have hres : sInjectContainer st other =
        (⟨st.entries ++ other.entries, max st.nextId other.nextId⟩, none) := by
      simp [sInjectContainer, hfind]
    refine ⟨hres, ?_, ?_⟩
    · intro k e he
      rw [hres]
      exact alook_append_left k other.entries he
    · intro k e he
      rw [hres]
      have hnone : alook k st.entries = none := by
        cases hc : alook k st.entries with
        | none => rfl
        | some e' =>
          have hmem : k ∈ st.entries.map Prod.fst :=
            (alook_isSome_iff_mem_keys k st.entries).mp (by simp [hc])
          rw [hdisj k hmem] at he
          exact absurd he (by simp)
      rw [show (⟨st.entries ++ other.entries, max st.nextId other.nextId⟩ :
          SContainer).entries = st.entries ++ other.entries from rfl,
        alook_append_right k st.entries other.entries hnone]
      exact he
  · rintro ⟨k, hk1, hk2⟩
    cases hfind : (other.entries.map Prod.fst).find?
        (fun k => (alook k st.entries).isSome) with
    | none =>
      exact absurd hk1
        (List.find?_eq_none.mp hfind k ((alook_isSome_iff_mem_keys k other.entries).mp hk2))
    | some k0 =>
      have hpred := List.find?_some hfind
      refine ⟨k0, by simpa using hpred,
        (alook_isSome_iff_mem_keys k0 other.entries).mpr
          (List.mem_of_find?_eq_some hfind), ?_⟩
      simp [sInjectContainer, hfind]

theorem injectContainer_atomic_union_witness :
    (sInjectContainer wS1 wS2).2 = none ∧
    (∃ k, (alook k wS1.entries).isSome ∧ (alook k wS1.entries).isSome ∧
      sInjectContainer wS1 wS1 = (wS1, some ("Containers have duplicated keys: " ++ k))) :=
  ⟨by rw [((injectContainer_atomic_union wS1 wS2).1 (by decide)).1],
    (injectContainer_atomic_union wS1 wS1).2 ⟨"s1", by decide, by decide⟩⟩

/-- **C4**: registering a second service under an already-registered
(non-reserved) name fails — in the single-descriptor variant with
`Duplicate service name: <n>`, in the batch variant with
`Duplicated service name: <n>` — and the container, in particular the
pre-existing entry at that name with its cached state, is unchanged. -/
theorem duplicate_name_rejected (st : SContainer) (n : String) (e : SEntry)
    (svc : ServiceDesc) (bst : BContainer) (bn : String) (be : BEntry) (bsvc : ServiceDesc)
    (hn : svc.name = n) (hl : alook n st.entries = some e)
    (hres : reservedFields.contains n = false)
    (hbn : bsvc.name = bn) (hbl : alook bn bst.entries = some be)
    (hbres : protoNames.contains bn = false) :
    sInject st svc = (st, some ("Duplicate service name: " ++ n)) ∧
    alook n (sInject st svc).1.entries = some e ∧
    bInject1 bst bsvc = (bst, some ("Duplicated service name: " ++ bn)) ∧
    alook bn (bInject1 bst bsvc).1.entries = some be := by
  have hmsg : ("Duplicat" ++ "ed service name: " : String) = "Duplicated service name: " := by
    decide
  have hres' : n ∉ reservedFields := by simpa using hres
  have hbres' : bn ∉ protoNames := by simpa using hbres
  have h1 : sInject st svc = (st, some ("Duplicate service name: " ++ n)) := by
    simp [sInject, hn, hres', hl]
  have h3 : bInject1 bst bsvc = (bst, some ("Duplicated service name: " ++ bn)) := by
    rw [← hmsg]
    simp [bInject1, bTruthy, hbn, hbl, hbres']
  exact ⟨h1, by rw [h1]; exact hl, h3, by rw [h3]; exact hbl⟩

theorem duplicate_name_rejected_witness :
    sInject wLazyC ⟨"lazy", []⟩ = (wLazyC, some ("Duplicate service name: " ++ "lazy")) ∧
    alook "lazy" (sInject wLazyC ⟨"lazy", []⟩).1.entries = some ⟨svcLazy, none, 0⟩ ∧
    bInject1 wBatchA ⟨"a", []⟩ = (wBatchA, some ("Duplicated service name: " ++ "a")) ∧
    alook "a" (bInject1 wBatchA ⟨"a", []⟩).1.entries = some ⟨svcA, none, 0⟩ :=
  duplicate_name_rejected wLazyC "lazy" ⟨svcLazy, none, 0⟩ ⟨"lazy", []⟩
    wBatchA "a" ⟨svcA, none, 0⟩ ⟨"a", []⟩ rfl (by decide) (by decide) rfl (by decide) (by decide)

/-- **C5**: a successful registration leaves the new entry uninitialized with
construction counter `0`, and reading `container.<name>` returns the lazy
proxy itself — a plain own-property read that fires no trap and constructs
nothing. -/
theorem retrieval_does_not_construct (st : SContainer) (svc : ServiceDesc) (st' : SContainer)
    (h : sInject st svc = (st', none)) :
    sEntryState st' svc.name = some (none, 0) ∧
    sContainerGet st' svc.name = some (HandleVal.lazyH svc.name) := by
  have he := sInject_ok_entry st svc st' h
  exact ⟨by simp [sEntryState, he], by simp [sContainerGet, he]⟩

theorem retrieval_does_not_construct_witness :
    sEntryState wLazyC "lazy" = some (none, 0) ∧
    sContainerGet wLazyC "lazy" = some (HandleVal.lazyH "lazy") :=
  retrieval_does_not_construct semptyC svcLazy wLazyC (by decide)

/-- **C6**: registering a service whose name is a reserved operation name
fails with a reserved-name error naming it, before any mutation: the
single-descriptor variant checks `ReservedFields` first and raises
`Reserved field name: <n>`; the batch and class-only variants detect the
truthy prototype method and raise `Reserved service name: <n>`; in every
variant the container comes back unchanged, so no entry is installed. -/
theorem reserved_name_rejected (st : SContainer) (svc : ServiceDesc)
    (bst : BContainer) (bsvc : ServiceDesc) (cst : BContainer) (csvc : ServiceDesc)
    (hres : reservedFields.contains svc.name = true)
    (hbres : protoNames.contains bsvc.name = true)
    (hcres : cReservedName csvc.name = true) :
    sInject st svc = (st, some ("Reserved field name: " ++ svc.name)) ∧
    bInject1 bst bsvc = (bst, some ("Reserved service name: " ++ bsvc.name)) ∧
    cInject cst csvc = (cst, some ("Reserved service name: " ++ csvc.name)) := by
  have hmsg : ("Reserv" ++ "ed service name: " : String) = "Reserved service name: " := by
    decide
  have hres' : svc.name ∈ reservedFields := by simpa using hres
  have hbres' : bsvc.name ∈ protoNames := by simpa using hbres
  have hcmem : csvc.name ∈ protoNames := by
    have h := hcres
    simp [cReservedName] at h
    rcases h with h | h <;> simp [protoNames, h]
  refine ⟨by simp [sInject, hres'], ?_, ?_⟩
  · rw [← hmsg]
    simp [bInject1, bTruthy, hbres']
  · rw [← hmsg]
    simp [cInject, bTruthy, hcmem, hcres]

theorem reserved_name_rejected_witness :
    sInject semptyC ⟨"inject", []⟩ =
      (semptyC, some ("Reserved field name: " ++ "inject")) ∧
    bInject1 bemptyC ⟨"inject", []⟩ =
      (bemptyC, some ("Reserved service name: " ++ "inject")) ∧
    cInject bemptyC ⟨"injectContainer", []⟩ =
      (bemptyC, some ("Reserved service name: " ++ "injectContainer")) :=
  reserved_name_rejected semptyC ⟨"inject", []⟩ bemptyC ⟨"inject", []⟩
    bemptyC ⟨"injectContainer", []⟩ (by decide) (by decide) (by decide)

/-- **C7**: in the batch variant, registering `"c"`, `"a"`, `"b"` together in
that order succeeds despite the forward references, and calling
`container.c.getValue()` — routed through the lazy handles — yields
`"CABA"`, with each of the three services constructed exactly once. -/
theorem batch_forward_reference_caba :
    (bInject bemptyC [svcC, svcA, svcB]).2 = none ∧
    (invokeGV 6 (bInject bemptyC [svcC, svcA, svcB]).1 "c").map Prod.fst = some "CABA" ∧
    (invokeGV 6 (bInject bemptyC [svcC, svcA, svcB]).1 "c").map
      (fun r => ((bEntryState r.2 "a").map Prod.snd, (bEntryState r.2 "b").map Prod.snd,
        (bEntryState r.2 "c").map Prod.snd)) = some (some 1, some 1, some 1) :=
  ⟨rfl, rfl, rfl⟩

/-- **C8**: a `get` through the handle resolves to the cached instance `i`
and returns `bindValue i` of the raw property value: function-typed values
come back as that very instance's bound methods, and every non-function
value comes back unchanged. -/
theorem method_values_bound_to_instance (st : SContainer) (name : String) (e : SEntry)
    (hl : alook name st.entries = some e) :
    ∃ i st' k, sGetInstance st name = some (i, st') ∧
      sEntryState st' name = some (some i, k) ∧
      (∀ prop, sProxyGet st name prop = some (bindValue i (propOf i prop), st')) ∧
      (∀ m, bindValue i (DiValue.fn m) = RetVal.bound i m) ∧
      (∀ v, (∀ m, v ≠ DiValue.fn m) → bindValue i v = RetVal.plain v) := by
  cases hm : e.inst with
  | some i =>
    refine ⟨i, st, e.count, sGetInstance_memo st name e i hl hm,
      by simp [sEntryState, hl, hm], fun prop => sProxyGet_memo st name prop e i hl hm,
      fun m => rfl, ?_⟩
    intro v hv
    cases v with
    | str s => rfl
    | fn m => exact absurd rfl (hv m)
    | undef => rfl
  | none =>
    refine ⟨mkInstance st.nextId e.svc, _, e.count + 1, sGetInstance_fresh st name e hl hm,
      by simp [sEntryState, alook_init_self st name e hl],
      fun prop => sProxyGet_fresh st name prop e hl hm, fun m => rfl, ?_⟩
    intro v hv
    cases v with
    | str s => rfl
    | fn m => exact absurd rfl (hv m)
    | undef => rfl

theorem method_values_bound_to_instance_witness :
    ∃ i st' k, sGetInstance wLazyC "lazy" = some (i, st') ∧
      sEntryState st' "lazy" = some (some i, k) ∧
      (∀ prop, sProxyGet wLazyC "lazy" prop = some (bindValue i (propOf i prop), st')) ∧
      (∀ m, bindValue i (DiValue.fn m) = RetVal.bound i m) ∧
      (∀ v, (∀ m, v ≠ DiValue.fn m) → bindValue i v = RetVal.plain v) :=
  method_values_bound_to_instance wLazyC "lazy" ⟨svcLazy, none, 0⟩ (by decide)

/-- **C9**: in the batch variant, when the second descriptor of a call fails
validation, the first — installed by the same call — stays installed:
registration is partial-then-fail, not all-or-nothing. -/
theorem batch_registration_partial (st st1 : BContainer) (s1 s2 : ServiceDesc) (msg : String)
    (h1 : bInject1 st s1 = (st1, none)) (h2 : bInject1 st1 s2 = (st1, some msg)) :
    bInject st [s1, s2] = (st1, some msg) ∧
    alook s1.name st1.entries = some ⟨s1, none, 0⟩ :=
  ⟨by simp [bInject, h1, h2], bInject1_ok_entry st s1 st1 h1⟩

def wDup1 : ServiceDesc := ⟨"s1", []⟩

def wDup2 : ServiceDesc := ⟨"s1", [("x", DiValue.str "y")]⟩

def wDupC : BContainer := ⟨[("s1", ⟨wDup1, none, 0⟩)], 0⟩

theorem batch_registration_partial_witness :
    bInject bemptyC [wDup1, wDup2] = (wDupC, some "Duplicated service name: s1") ∧
    alook "s1" wDupC.entries = some ⟨wDup1, none, 0⟩ :=
  batch_registration_partial bemptyC wDupC wDup1 wDup2 "Duplicated service name: s1"
    (by decide) (by decide)

/-- **C10**: in the batch and class-only variants the first `get` through a
handle overwrites the container slot with the constructed instance, so
`container.<name>` thereafter reads the raw instance; in the
single-descriptor variant the slot holds the lazy proxy forever, whatever
interactions the handle sees. -/
theorem slot_overwrite_on_first_access (bst bst1 : BContainer) (bsvc : ServiceDesc)
    (cst cst1 : BContainer) (csvc : ServiceDesc)
    (st st1 : SContainer) (svc : ServiceDesc)
    (hb : bInject1 bst bsvc = (bst1, none))
    (hc : cInject cst csvc = (cst1, none))
    (hs : sInject st svc = (st1, none)) :
    bContainerGet bst1 bsvc.name = some (HandleVal.lazyH bsvc.name) ∧
    (∀ prop, ∃ i bst2,
      bProxyGet bst1 bsvc.name prop = some (bindValue i (propOf i prop), bst2) ∧
      bContainerGet bst2 bsvc.name = some (HandleVal.rawH i)) ∧
    cContainerGet cst1 csvc.name = some (HandleVal.lazyH csvc.name) ∧
    (∀ prop, ∃ i cst2,
      cProxyGet cst1 csvc.name prop = some (bindValue i (propOf i prop), cst2) ∧
      cContainerGet cst2 csvc.name = some (HandleVal.rawH i)) ∧
    sContainerGet st1 svc.name = some (HandleVal.lazyH svc.name) ∧
    (∀ ops st2, sRunOps st1 svc.name ops = some st2 →
      sContainerGet st2 svc.name = some (HandleVal.lazyH svc.name)) := by
  have hbe := bInject1_ok_entry bst bsvc bst1 hb
  have hce := cInject_ok_entry cst csvc cst1 hc
  have hse := sInject_ok_entry st svc st1 hs
  refine ⟨by simp [bContainerGet, hbe], ?_, by simp [cContainerGet, hce], ?_,
    by simp [sContainerGet, hse], ?_⟩
  · intro prop
    exact ⟨mkInstance bst1.nextId bsvc, _,
      bProxyGet_fresh bst1 bsvc.name prop ⟨bsvc, none, 0⟩ hbe rfl,
      by simp [bContainerGet, balook_init_self bst1 bsvc.name ⟨bsvc, none, 0⟩ hbe]⟩
  · intro prop
    exact ⟨mkInstance cst1.nextId csvc, _,
      cProxyGet_fresh cst1 csvc.name prop ⟨csvc, none, 0⟩ hce rfl,
      by simp [cContainerGet, balook_init_self cst1 csvc.name ⟨csvc, none, 0⟩ hce]⟩
  · intro ops st2 h
    have hpres := sRunOps_preserves_entry svc.name ops st1 ⟨svc, none, 0⟩ hse st2 h
    obtain ⟨e2, he2⟩ := Option.isSome_iff_exists.mp hpres
    simp [sContainerGet, he2]

theorem slot_overwrite_on_first_access_witness :
    bContainerGet wBatchA "a" = some (HandleVal.lazyH "a") ∧
    (∃ i bst2,
      bProxyGet wBatchA "a" "getValue" = some (bindValue i (propOf i "getValue"), bst2) ∧
      bContainerGet bst2 "a" = some (HandleVal.rawH i)) ∧
    cContainerGet wClassA "a" = some (HandleVal.lazyH "a") ∧
    sContainerGet wLazyC "lazy" = some (HandleVal.lazyH "lazy") :=
  have h := slot_overwrite_on_first_access bemptyC wBatchA svcA bemptyC wClassA svcA
    semptyC wLazyC svcLazy (by decide) (by decide) (by decide)
  ⟨h.1, h.2.1 "getValue", h.2.2.1, h.2.2.2.2.1⟩
